import Mathlib

/-
Verification of the cache simulator in riscv/cachesim.cc.

The embedding below is a shallow model of the C++ source, translated
declaration by declaration:

  check_tag, victimize, LRU, FIFO, access  -> cache_sim_t members
  fa_find, fa_victimize, fa_access         -> fa_cache_sim_t overrides
  initCache                                -> cache_sim_t::init

Modelling conventions, all stated once here:
- uint64_t values are naturals; every place the C code applies a bitwise
  complement, the model applies NOT64, complement inside 64 bits, which is
  what the machine operation computes on uint64_t operands.
- The VALID and DIRTY flag constants come from the cachesim header, which
  is not part of the sources given here; the spec fixes them as two
  reserved flag bits packed into the same word as the tag, so the model
  uses bits 63 and 62 (the tag of any address fits below bit 61 because
  the line size is at least 8).
- The int counters LRUCount and FIFOCount and the int stamp arrays are
  modelled as unbounded naturals, which matches executions that do not
  overflow the 32-bit counters.
- The lfsr pseudo-random generator is an external collaborator, out of
  scope by the spec; the model carries an opaque stream of draws in the
  state, and lfsr.next consumes the head of that stream.
- The global policy character is carried as a per-state field; the three
  strcmp tests against "R", "L", "F" become matches on that field, and
  Policy.oth stands for any character that matches none of the three.
- Calls forwarded to the miss handler are recorded as a trace list, in
  call order, instead of recursing into a second model; hasMissHandler
  mirrors miss_handler != NULL.
- A cache_sim_t::access whose final *check_tag(addr) |= DIRTY would
  dereference NULL is modelled as the result none; every other run
  returns some.
-/

namespace CacheSim

/-- Valid flag bit of a tag word (bit 63 of the uint64_t tag entry). -/
def VALID : Nat := 2 ^ 63

/-- Dirty flag bit of a tag word (bit 62 of the uint64_t tag entry). -/
def DIRTY : Nat := 2 ^ 62

/-- Bitwise complement on 64-bit words: NOT64 m is what the C operator
tilde computes on a uint64_t operand m. -/
def NOT64 (m : Nat) : Nat := (2 ^ 64 - 1) ^^^ m

/-- The replacement policy character stored by cache_sim_t::construct:
R, L, F, or any other character (Policy.oth). -/
inductive Policy where
  | R : Policy
  | L : Policy
  | F : Policy
  | oth : Policy
deriving DecidableEq, Repr

/-- State of one cache_sim_t object: the configuration fields, the
statistics counters, the policy bookkeeping added in this repository,
the tags array, whether a miss handler is attached, and the opaque
stream of random draws feeding lfsr.next. -/
structure CacheState where
  sets : Nat
  ways : Nat
  linesz : Nat
  idx_shift : Nat
  policy : Policy
  LRUCount : Nat
  FIFOCount : Nat
  LRUTime : List Nat
  FIFOTime : List Nat
  tags : List Nat
  read_accesses : Nat
  read_misses : Nat
  bytes_read : Nat
  write_accesses : Nat
  write_misses : Nat
  bytes_written : Nat
  writebacks : Nat
  hasMissHandler : Bool
  draws : List Nat
deriving DecidableEq, Repr

/-- One call forwarded to the next-level handler:
miss_handler->access(addr, bytes, isWrite). -/
structure MemCall where
  addr : Nat
  bytes : Nat
  isWrite : Bool
deriving DecidableEq, Repr

/-- size_t idx = (addr >> idx_shift) & (sets-1). -/
def setIndex (s : CacheState) (addr : Nat) : Nat :=
  (addr >>> s.idx_shift) &&& (s.sets - 1)

/-- size_t tag = (addr >> idx_shift) | VALID. -/
def lineTag (s : CacheState) (addr : Nat) : Nat :=
  (addr >>> s.idx_shift) ||| VALID

/-- The scan loop of cache_sim_t::check_tag: the first way i of the target
set with tag == (tags[idx*ways + i] & ~DIRTY), returned as the absolute
index idx*ways + i into the tags array (the pointer the C code returns). -/
def check_tag_find (s : CacheState) (addr : Nat) : Option Nat :=
  ((List.range s.ways).find? (fun i =>
      lineTag s addr == (s.tags.getD (setIndex s addr * s.ways + i) 0) &&& NOT64 DIRTY)).map
    (fun i => setIndex s addr * s.ways + i)

/-- cache_sim_t::check_tag: on a hit under policy L it also restamps
LRUTime[idx*ways+i] = LRUCount before returning the slot. -/
def check_tag (s : CacheState) (addr : Nat) : Option Nat × CacheState :=
  match check_tag_find s addr with
  | some j =>
      (some j,
       if s.policy = Policy.L then { s with LRUTime := s.LRUTime.set j s.LRUCount } else s)
  | none => (none, s)

/-- cache_sim_t::victimize: way = lfsr.next() % ways, swap in the new tag,
return the previous occupant. -/
def victimize (s : CacheState) (addr : Nat) : Nat × CacheState :=
  let idx := setIndex s addr
  let way := s.draws.headD 0 % s.ways
  (s.tags.getD (idx * s.ways + way) 0,
   { s with tags := s.tags.set (idx * s.ways + way) (lineTag s addr),
            draws := s.draws.tail })

/-- The full-set scan of cache_sim_t::LRU and cache_sim_t::FIFO: starting
from way = 0 and count = 2147483647, keep the first way whose stamp is
strictly below the running minimum. -/
def minStampWay (times : List Nat) (idx ways : Nat) : Nat :=
  ((List.range ways).foldl
    (fun p i =>
      if times.getD (idx * ways + i) 0 < p.2 then (i, times.getD (idx * ways + i) 0) else p)
    (0, 2147483647)).1

/-- The empty-slot scan shared by cache_sim_t::LRU and cache_sim_t::FIFO:
the first way of the target set whose tags entry is 0. -/
def emptyWayScan (s : CacheState) (addr : Nat) : Option Nat :=
  (List.range s.ways).find? (fun i =>
    s.tags.getD (setIndex s addr * s.ways + i) 0 == 0)

/-- cache_sim_t::LRU: fill the first empty way, stamping it with
LRUCount++ on the way in; otherwise evict the way with the smallest
LRUTime stamp; either way restamp the chosen way with LRUCount++ and
install (addr >> idx_shift) | VALID, returning the previous occupant. -/
def LRU (s : CacheState) (addr : Nat) : Nat × CacheState :=
  let idx := setIndex s addr
  let p :=
    match emptyWayScan s addr with
    | some i =>
        ({ s with LRUTime := s.LRUTime.set (idx * s.ways + i) s.LRUCount,
                  LRUCount := s.LRUCount + 1 }, i)
    | none => (s, minStampWay s.LRUTime idx s.ways)
  let s1 := p.1
  let way := p.2
  (s1.tags.getD (idx * s.ways + way) 0,
   { s1 with LRUTime := s1.LRUTime.set (idx * s.ways + way) s1.LRUCount,
             LRUCount := s1.LRUCount + 1,
             tags := s1.tags.set (idx * s.ways + way) (lineTag s addr) })

/-- cache_sim_t::FIFO: same scan structure as LRU but over FIFOTime, and
the stamps are written with the current FIFOCount without incrementing it. -/
def FIFO (s : CacheState) (addr : Nat) : Nat × CacheState :=
  let idx := setIndex s addr
  let p :=
    match emptyWayScan s addr with
    | some i =>
        ({ s with FIFOTime := s.FIFOTime.set (idx * s.ways + i) s.FIFOCount }, i)
    | none => (s, minStampWay s.FIFOTime idx s.ways)
  let s1 := p.1
  let way := p.2
  (s1.tags.getD (idx * s.ways + way) 0,
   { s1 with FIFOTime := s1.FIFOTime.set (idx * s.ways + way) s1.FIFOCount,
             tags := s1.tags.set (idx * s.ways + way) (lineTag s addr) })

/-- The victim-selection dispatch of cache_sim_t::access: victim starts
as 0 and is replaced only when the policy character is R, L or F. -/
def pickVictim (s : CacheState) (addr : Nat) : Nat × CacheState :=
  match s.policy with
  | Policy.R => victimize s addr
  | Policy.L => LRU s addr
  | Policy.F => FIFO s addr
  | Policy.oth => (0, s)

/-- The two counter increments at the top of cache_sim_t::access:
LRUCount++ when the policy is L, FIFOCount++ when it is F. -/
def bumpPolicyCounters (s : CacheState) : CacheState :=
  let s1 := if s.policy = Policy.L then { s with LRUCount := s.LRUCount + 1 } else s
  if s1.policy = Policy.F then { s1 with FIFOCount := s1.FIFOCount + 1 } else s1

/-- The unconditional statistics updates of cache_sim_t::access:
store ? write_accesses++ : read_accesses++, and the byte counters. -/
def bumpAccessStats (s : CacheState) (bytes : Nat) (store : Bool) : CacheState :=
  if store then
    { s with write_accesses := s.write_accesses + 1, bytes_written := s.bytes_written + bytes }
  else
    { s with read_accesses := s.read_accesses + 1, bytes_read := s.bytes_read + bytes }

/-- The miss-counter update of cache_sim_t::access:
store ? write_misses++ : read_misses++. -/
def bumpMissStats (s : CacheState) (store : Bool) : CacheState :=
  if store then { s with write_misses := s.write_misses + 1 }
  else { s with read_misses := s.read_misses + 1 }

/-- The state of cache_sim_t::access just after the counter and statistics
updates, before the tag lookup. -/
def preS (s : CacheState) (bytes : Nat) (store : Bool) : CacheState :=
  bumpAccessStats (bumpPolicyCounters s) bytes store

/-- The miss branch of cache_sim_t::access, entered with the state t as it
stands after the failed lookup: bump the miss counter, pick a victim, do
the dirty writeback if the victim was VALID and DIRTY (handler call first,
then writebacks++), forward the fill to the handler, and for a store
dereference the re-lookup to set DIRTY; a NULL re-lookup is none. -/
def missPath (t : CacheState) (addr bytes : Nat) (store : Bool) :
    Option (CacheState × List MemCall) :=
  let t1 := bumpMissStats t store
  let p := pickVictim t1 addr
  let victim := p.1
  let t2 := p.2
  let q :=
    if (victim &&& (VALID ||| DIRTY)) = (VALID ||| DIRTY) then
      ((if t2.hasMissHandler then
          [{ addr := (victim &&& NOT64 (VALID ||| DIRTY)) <<< t2.idx_shift,
             bytes := t2.linesz, isWrite := true : MemCall }]
        else []),
       { t2 with writebacks := t2.writebacks + 1 })
    else ([], t2)
  let t3 := q.2
  let calls := q.1 ++
    (if t3.hasMissHandler then
      [{ addr := addr &&& NOT64 (t3.linesz - 1), bytes := t3.linesz, isWrite := false : MemCall }]
     else [])
  if store then
    match check_tag t3 addr with
    | (some j, t4) =>
        some ({ t4 with tags := t4.tags.set j ((t4.tags.getD j 0) ||| DIRTY) }, calls)
    | (none, _) => none
  else
    some (t3, calls)

/-- cache_sim_t::access(addr, bytes, store). The returned list is the
trace of calls issued to the attached miss handler, in call order; the
result is none exactly when the final *check_tag(addr) |= DIRTY of the C
code would dereference a NULL pointer. -/
def access (s : CacheState) (addr bytes : Nat) (store : Bool) :
    Option (CacheState × List MemCall) :=
  let s2 := preS s bytes store
  match check_tag s2 addr with
  | (some j, s3) =>
      some (if store then { s3 with tags := s3.tags.set j ((s3.tags.getD j 0) ||| DIRTY) } else s3,
            [])
  | (none, s3) => missPath s3 addr bytes store

/-- The victim line examined by the miss branch of cache_sim_t::access for
the call access(addr, bytes, store), named so that theorems can speak
about it: the first component of the pickVictim call that access makes. -/
def missVictim (s : CacheState) (addr bytes : Nat) (store : Bool) : Nat :=
  (pickVictim (bumpMissStats (preS s bytes store) store) addr).1

/-- The state produced by the hit branch of cache_sim_t::access when the
lookup on the bumped state found slot j. -/
def hitResult (s : CacheState) (addr bytes : Nat) (store : Bool) (j : Nat) : CacheState :=
  let s2 := preS s bytes store
  let s3 := if s2.policy = Policy.L then { s2 with LRUTime := s2.LRUTime.set j s2.LRUCount }
            else s2
  if store then { s3 with tags := s3.tags.set j ((s3.tags.getD j 0) ||| DIRTY) } else s3

/-- The loop of cache_sim_t::init computing idx_shift:
for (x = linesz; x > 1; x >>= 1) idx_shift++. -/
def idxShiftLoop (x : Nat) : Nat :=
  if h : 1 < x then idxShiftLoop (x >>> 1) + 1 else 0
termination_by x
decreasing_by
  simp only [Nat.shiftRight_succ, Nat.shiftRight_zero]
  omega

/-- cache_sim_t::init for a model whose construct call stored the given
policy character: the two geometry checks are fatal (modelled as none,
since help() prints usage and exits the process, so no partially
constructed object is observable), and otherwise every counter, stamp
array and tag slot starts at zero with no miss handler attached. -/
def initCache (sets ways linesz : Nat) (pol : Policy) (draws : List Nat) :
    Option CacheState :=
  if sets = 0 ∨ (sets &&& (sets - 1)) ≠ 0 then none
  else if linesz < 8 ∨ (linesz &&& (linesz - 1)) ≠ 0 then none
  else some
    { sets := sets, ways := ways, linesz := linesz,
      idx_shift := idxShiftLoop linesz, policy := pol,
      LRUCount := 0, FIFOCount := 0,
      LRUTime := List.replicate (sets * ways) 0,
      FIFOTime := List.replicate (sets * ways) 0,
      tags := List.replicate (sets * ways) 0,
      read_accesses := 0, read_misses := 0, bytes_read := 0,
      write_accesses := 0, write_misses := 0, bytes_written := 0,
      writebacks := 0, hasMissHandler := false, draws := draws }

/-- State of one fa_cache_sim_t object: the inherited cache_sim_t state
(whose tags array the inherited LRU and FIFO members keep using) plus the
shadowing std::map<uint64_t, uint64_t> tags of the subclass, kept as an
association list sorted by key, matching the iteration order of std::map. -/
structure FACacheState where
  base : CacheState
  faTags : List (Nat × Nat)
deriving DecidableEq, Repr

/-- fa_cache_sim_t::check_tag: tags.find(addr >> idx_shift), returning the
key of the entry found (the handle for the later |= DIRTY through the
returned pointer). No LRU restamp: the override has none. -/
def fa_find (s : FACacheState) (addr : Nat) : Option Nat :=
  (s.faTags.find? (fun p => p.1 == addr >>> s.base.idx_shift)).map (fun p => p.1)

/-- tags[k] |= DIRTY through the pointer fa_cache_sim_t::check_tag
returned: update the value stored at key k. -/
def faMarkDirty (m : List (Nat × Nat)) (k : Nat) : List (Nat × Nat) :=
  m.map (fun p => if p.1 == k then (p.1, p.2 ||| DIRTY) else p)

/-- tags[addr >> idx_shift] = (addr >> idx_shift) | VALID on a std::map:
insert or assign, keeping the list sorted by key. -/
def mapInsert (m : List (Nat × Nat)) (k v : Nat) : List (Nat × Nat) :=
  match m with
  | [] => [(k, v)]
  | q :: rest =>
      if k < q.1 then (k, v) :: q :: rest
      else if k = q.1 then (k, v) :: rest
      else q :: mapInsert rest k v

/-- fa_cache_sim_t::victimize: when the map is at capacity, advance the
begin iterator by lfsr.next() % ways (consuming one draw), take that
entry's value as the old tag and erase it; then install the new entry. -/
def fa_victimize (s : FACacheState) (addr : Nat) : Nat × FACacheState :=
  let p :=
    if s.faTags.length == s.base.ways then
      let pos := s.base.draws.headD 0 % s.base.ways
      ((s.faTags.getD pos (0, 0)).2,
       { s with faTags := s.faTags.eraseIdx pos,
                base := { s.base with draws := s.base.draws.tail } })
    else (0, s)
  (p.1, { p.2 with faTags := mapInsert p.2.faTags (addr >>> s.base.idx_shift)
                              ((addr >>> s.base.idx_shift) ||| VALID) })

/-- The victim-selection dispatch as it runs on an fa_cache_sim_t object:
victimize is virtual and resolves to the override, but LRU and FIFO are
members of cache_sim_t and keep operating on the inherited (shadowed)
tags array of the base object. -/
def fa_pickVictim (s : FACacheState) (addr : Nat) : Nat × FACacheState :=
  match s.base.policy with
  | Policy.R => fa_victimize s addr
  | Policy.L => let p := LRU s.base addr; (p.1, { s with base := p.2 })
  | Policy.F => let p := FIFO s.base addr; (p.1, { s with base := p.2 })
  | Policy.oth => (0, s)

/-- cache_sim_t::access as it executes on an fa_cache_sim_t object: the
same body, with the virtual check_tag and victimize resolved to the
fa overrides. -/
def fa_access (s : FACacheState) (addr bytes : Nat) (store : Bool) :
    Option (FACacheState × List MemCall) :=
  let s2 : FACacheState := { s with base := preS s.base bytes store }
  match fa_find s2 addr with
  | some k =>
      some (if store then { s2 with faTags := faMarkDirty s2.faTags k } else s2, [])
  | none =>
      let t1 : FACacheState := { s2 with base := bumpMissStats s2.base store }
      let p := fa_pickVictim t1 addr
      let victim := p.1
      let t2 := p.2
      let q :=
        if (victim &&& (VALID ||| DIRTY)) = (VALID ||| DIRTY) then
          ((if t2.base.hasMissHandler then
              [{ addr := (victim &&& NOT64 (VALID ||| DIRTY)) <<< t2.base.idx_shift,
                 bytes := t2.base.linesz, isWrite := true : MemCall }]
            else []),
           { t2 with base := { t2.base with writebacks := t2.base.writebacks + 1 } })
        else ([], t2)
      let t3 := q.2
      let calls := q.1 ++
        (if t3.base.hasMissHandler then
          [{ addr := addr &&& NOT64 (t3.base.linesz - 1), bytes := t3.base.linesz,
             isWrite := false : MemCall }]
         else [])
      if store then
        match fa_find t3 addr with
        | some k => some ({ t3 with faTags := faMarkDirty t3.faTags k }, calls)
        | none => none
      else
        some (t3, calls)

/-- Run a trace of (addr, bytes, store) references through cache_sim_t,
recording for each one whether it missed (true = miss, read off the
miss counters that access itself maintains). -/
def runMisses (s : CacheState) : List (Nat × Nat × Bool) → Option (CacheState × List Bool)
  | [] => some (s, [])
  | (a, b, w) :: tr =>
      match access s a b w with
      | none => none
      | some (s1, _) =>
          match runMisses s1 tr with
          | none => none
          | some (sf, ms) =>
              some (sf, (!((s1.read_misses + s1.write_misses) == (s.read_misses + s.write_misses))) :: ms)

/-- Run a trace of (addr, bytes, store) references through an
fa_cache_sim_t object, recording for each one whether it missed. -/
def fa_runMisses (s : FACacheState) : List (Nat × Nat × Bool) → Option (FACacheState × List Bool)
  | [] => some (s, [])
  | (a, b, w) :: tr =>
      match fa_access s a b w with
      | none => none
      | some (s1, _) =>
          match fa_runMisses s1 tr with
          | none => none
          | some (sf, ms) =>
              some (sf, (!((s1.base.read_misses + s1.base.write_misses) ==
                           (s.base.read_misses + s.base.write_misses))) :: ms)

/-- Run a list of one-byte reads through cache_sim_t, keeping the final
state. -/
def readsFrom (s : CacheState) (addrs : List Nat) : Option CacheState :=
  addrs.foldl (fun acc a => acc.bind (fun st => (access st a 1 false).map (fun p => p.1)))
    (some s)

/-- The miss rate printed by cache_sim_t::print_stats,
100 * (read_misses + write_misses) / (read_accesses + write_accesses),
in exact rational arithmetic (the float computation is exact at the
values of the scenario proved below). -/
def missRate (s : CacheState) : ℚ :=
  100 * ((s.read_misses : ℚ) + (s.write_misses : ℚ)) /
    ((s.read_accesses : ℚ) + (s.write_accesses : ℚ))

/-- A freshly initialized model (every counter, stamp and tag zero, no
miss handler, line size 8 so idx_shift = 3), for concrete scenarios. -/
def freshCache (sets ways : Nat) (pol : Policy) : CacheState :=
  { sets := sets, ways := ways, linesz := 8, idx_shift := 3, policy := pol,
    LRUCount := 0, FIFOCount := 0,
    LRUTime := List.replicate (sets * ways) 0,
    FIFOTime := List.replicate (sets * ways) 0,
    tags := List.replicate (sets * ways) 0,
    read_accesses := 0, read_misses := 0, bytes_read := 0,
    write_accesses := 0, write_misses := 0, bytes_written := 0,
    writebacks := 0, hasMissHandler := false, draws := [] }

/-- Direct-mapped LRU cache holding line 1 valid and dirty, with a miss
handler attached: the scenario of the writeback witness. -/
def c1s : CacheState :=
  { freshCache 1 1 Policy.L with tags := [1 ||| VALID ||| DIRTY], hasMissHandler := true }

/-- Set-associative model with sets = 1, ways = 2, line size 8, policy L:
one operand of the backend-equivalence comparison. -/
def c2sa : CacheState := freshCache 1 2 Policy.L

/-- The fully-associative model with the same ways, line size and policy:
the other operand of the backend-equivalence comparison. -/
def c2fa : FACacheState := { base := freshCache 1 2 Policy.L, faTags := [] }

/-- Fresh direct-mapped LRU model used to count the LRUCount increments of
a single empty-slot miss. -/
def c3s : CacheState := freshCache 1 1 Policy.L

/-- Direct-mapped LRU model holding line 0 valid: a read of address 0
hits and must restamp the slot with the current counter value. -/
def c4s : CacheState := { freshCache 1 1 Policy.L with tags := [0 ||| VALID] }

/-- Fresh direct-mapped FIFO model, used to witness the exactly-one
FIFOCount increment per access. -/
def c3f : CacheState := freshCache 1 1 Policy.F

/-- Fresh LRU model with one set of three ways: the state the A,B,C,D,A,E
eviction-order scenario starts from. -/
def c5s : CacheState := freshCache 1 3 Policy.L

/-- Fresh LRU model with one set of two ways: the state of the miss-rate
scenario (line addresses 0, 1, 0, 2). -/
def c6s : CacheState := freshCache 1 2 Policy.L

/-- Direct-mapped FIFO model holding line 0 valid: a read of address 0
hits, and the hit still increments FIFOCount. -/
def c7s : CacheState := { freshCache 1 1 Policy.F with tags := [0 ||| VALID] }

/-- Fresh direct-mapped model under the Random policy with one queued
draw, used to instantiate the victim-slot and re-lookup theorems. -/
def c8s : CacheState := { freshCache 1 1 Policy.R with draws := [5] }

/-- The policy-counter bump written as one explicit record update. -/
lemma bumpPolicyCounters_eq (s : CacheState) :
    bumpPolicyCounters s =
      { s with LRUCount := if s.policy = Policy.L then s.LRUCount + 1 else s.LRUCount,
               FIFOCount := if s.policy = Policy.F then s.FIFOCount + 1 else s.FIFOCount } := by
  unfold bumpPolicyCounters
  cases h : s.policy <;> simp [h] <;> (try rw [← h])

/-- The statistics prologue of access written as one explicit record update. -/
lemma preS_eq (s : CacheState) (bytes : Nat) (store : Bool) :
    preS s bytes store =
      { s with LRUCount := if s.policy = Policy.L then s.LRUCount + 1 else s.LRUCount,
               FIFOCount := if s.policy = Policy.F then s.FIFOCount + 1 else s.FIFOCount,
               read_accesses := if store then s.read_accesses else s.read_accesses + 1,
               bytes_read := if store then s.bytes_read else s.bytes_read + bytes,
               write_accesses := if store then s.write_accesses + 1 else s.write_accesses,
               bytes_written := if store then s.bytes_written + bytes else s.bytes_written } := by
  unfold preS bumpAccessStats
  rw [bumpPolicyCounters_eq]
  cases store <;> simp

/-- The counter prologue does not feed the tag lookup. -/
lemma check_tag_find_preS (s : CacheState) (bytes : Nat) (store : Bool) (addr : Nat) :
    check_tag_find (preS s bytes store) addr = check_tag_find s addr := by
  rw [preS_eq]; rfl

/-- The miss-counter bump does not feed the tag lookup. -/
lemma check_tag_find_bumpMissStats (t : CacheState) (store : Bool) (addr : Nat) :
    check_tag_find (bumpMissStats t store) addr = check_tag_find t addr := by
  unfold bumpMissStats; cases store <;> rfl

/-- Victim selection touches only the tags array, the stamp arrays, the
LRU counter and the draw stream: every other field is framed. -/
lemma pickVictim_frame (s : CacheState) (addr : Nat) :
    (pickVictim s addr).2.writebacks = s.writebacks ∧
    (pickVictim s addr).2.hasMissHandler = s.hasMissHandler ∧
    (pickVictim s addr).2.idx_shift = s.idx_shift ∧
    (pickVictim s addr).2.linesz = s.linesz ∧
    (pickVictim s addr).2.ways = s.ways ∧
    (pickVictim s addr).2.sets = s.sets ∧
    (pickVictim s addr).2.policy = s.policy ∧
    (pickVictim s addr).2.FIFOCount = s.FIFOCount ∧
    (pickVictim s addr).2.read_misses = s.read_misses ∧
    (pickVictim s addr).2.write_misses = s.write_misses := by
  unfold pickVictim victimize LRU FIFO
  cases h : s.policy <;> simp [h] <;> (cases hw : emptyWayScan s addr <;> simp [h, hw])

/-- LRUCount after victim selection: untouched unless the policy is L, in
which case the LRU routine stamps it once more on the empty-slot path. -/
lemma pickVictim_LRUCount (s : CacheState) (addr : Nat) :
    (pickVictim s addr).2.LRUCount =
      s.LRUCount + (if s.policy = Policy.L then
          (if (emptyWayScan s addr).isSome then 2 else 1) else 0) := by
  unfold pickVictim victimize LRU FIFO
  cases h : s.policy <;> simp [h] <;> (cases hw : emptyWayScan s addr <;> simp [h, hw])

/-- The lookup component of check_tag. -/
lemma check_tag_fst (s : CacheState) (addr : Nat) :
    (check_tag s addr).1 = check_tag_find s addr := by
  unfold check_tag
  cases check_tag_find s addr <;> simp

/-- check_tag mutates at most the LRUTime array (the hit restamp under
policy L): every other field is framed. -/
lemma check_tag_snd_frame (s : CacheState) (addr : Nat) :
    (check_tag s addr).2.writebacks = s.writebacks ∧
    (check_tag s addr).2.hasMissHandler = s.hasMissHandler ∧
    (check_tag s addr).2.idx_shift = s.idx_shift ∧
    (check_tag s addr).2.linesz = s.linesz ∧
    (check_tag s addr).2.ways = s.ways ∧
    (check_tag s addr).2.sets = s.sets ∧
    (check_tag s addr).2.policy = s.policy ∧
    (check_tag s addr).2.LRUCount = s.LRUCount ∧
    (check_tag s addr).2.FIFOCount = s.FIFOCount ∧
    (check_tag s addr).2.FIFOTime = s.FIFOTime ∧
    (check_tag s addr).2.tags = s.tags ∧
    (check_tag s addr).2.read_misses = s.read_misses ∧
    (check_tag s addr).2.write_misses = s.write_misses := by
  unfold check_tag
  cases check_tag_find s addr <;> simp <;> (split <;> simp)

/-- The miss-counter bump written as one explicit record update. -/
lemma bumpMissStats_eq (t : CacheState) (store : Bool) :
    bumpMissStats t store =
      { t with read_misses := if store then t.read_misses else t.read_misses + 1,
               write_misses := if store then t.write_misses + 1 else t.write_misses } := by
  unfold bumpMissStats
  cases store <;> simp

/-- What the miss branch does to the writeback counter and to the handler
trace, as a function of the victim returned by the policy dispatch: a
VALID and DIRTY victim gives exactly one extra writeback and, when a
handler is attached, the write call (line-aligned victim address, one
line, write direction) strictly before the fill call; any other victim
leaves the counter alone and produces only the fill call. -/
lemma missPath_spec (t : CacheState) (addr bytes : Nat) (store : Bool)
    (s' : CacheState) (calls : List MemCall) (v : Nat) (t2 : CacheState)
    (hp : pickVictim (bumpMissStats t store) addr = (v, t2))
    (h : missPath t addr bytes store = some (s', calls)) :
    (v &&& (VALID ||| DIRTY) = VALID ||| DIRTY →
        s'.writebacks = t.writebacks + 1 ∧
        calls = if t.hasMissHandler then
            [⟨(v &&& NOT64 (VALID ||| DIRTY)) <<< t.idx_shift, t.linesz, true⟩,
             ⟨addr &&& NOT64 (t.linesz - 1), t.linesz, false⟩]
          else []) ∧
    (v &&& (VALID ||| DIRTY) ≠ VALID ||| DIRTY →
        s'.writebacks = t.writebacks ∧
        calls = if t.hasMissHandler then
            [⟨addr &&& NOT64 (t.linesz - 1), t.linesz, false⟩]
          else []) := by
  have hfr := pickVictim_frame (bumpMissStats t store) addr
  rw [hp] at hfr
  have hwb : t2.writebacks = t.writebacks := by
    rw [hfr.1, bumpMissStats_eq]
  have hmh : t2.hasMissHandler = t.hasMissHandler := by
    rw [hfr.2.1, bumpMissStats_eq]
  have hsh : t2.idx_shift = t.idx_shift := by
    rw [hfr.2.2.1, bumpMissStats_eq]
  have hlz : t2.linesz = t.linesz := by
    rw [hfr.2.2.2.1, bumpMissStats_eq]
  simp only [missPath, hp] at h
  by_cases hd : v &&& (VALID ||| DIRTY) = VALID ||| DIRTY
  · simp only [hd, if_true] at h
    refine ⟨fun _ => ?_, fun hc => absurd hd hc⟩
    cases store with
    | false =>
        simp only [Bool.false_eq_true, if_false, Option.some.injEq, Prod.mk.injEq] at h
        obtain ⟨hs, hcalls⟩ := h
        subst hs; subst hcalls
        refine ⟨by simp [hwb], ?_⟩
        simp only [hmh, hsh, hlz]
        cases hh : t.hasMissHandler <;> simp [hh]
    | true =>
        rcases hct : check_tag { t2 with writebacks := t2.writebacks + 1 } addr with ⟨jo, t4⟩
        have hf2 := check_tag_snd_frame { t2 with writebacks := t2.writebacks + 1 } addr
        rw [hct] at hf2 h
        have hf2w : t4.writebacks = t2.writebacks + 1 := by simpa using hf2.1
        cases jo with
        | none => simp at h
        | some j =>
            simp only [if_true, ite_true, eq_self_iff_true, Option.some.injEq, Prod.mk.injEq] at h
            obtain ⟨hs, hcalls⟩ := h
            subst hs; subst hcalls
            refine ⟨by simp [hf2w, hwb], ?_⟩
            simp only [hmh, hsh, hlz]
            cases hh : t.hasMissHandler <;> simp [hh]
  · simp only [hd, if_false] at h
    refine ⟨fun hc => absurd hc hd, fun _ => ?_⟩
    cases store with
    | false =>
        simp only [Bool.false_eq_true, if_false, Option.some.injEq, Prod.mk.injEq] at h
        obtain ⟨hs, hcalls⟩ := h
        subst hs; subst hcalls
        refine ⟨by simp [hwb], ?_⟩
        simp only [hmh, hlz]
        cases hh : t.hasMissHandler <;> simp [hh]
    | true =>
        rcases hct : check_tag t2 addr with ⟨jo, t4⟩
        have hf2 := check_tag_snd_frame t2 addr
        rw [hct] at hf2 h
        have hf2w : t4.writebacks = t2.writebacks := by simpa using hf2.1
        cases jo with
        | none => simp at h
        | some j =>
            simp only [if_true, ite_true, eq_self_iff_true, Option.some.injEq, Prod.mk.injEq] at h
            obtain ⟨hs, hcalls⟩ := h
            subst hs; subst hcalls
            refine ⟨by simp [hf2w, hwb], ?_⟩
            simp only [hmh, hlz]
            cases hh : t.hasMissHandler <;> simp [hh]

/-- Reduction of access on a hit: the result is the hit branch applied to
the bumped state. -/
lemma access_hit (s : CacheState) (addr bytes : Nat) (store : Bool) (j : Nat)
    (h : check_tag_find s addr = some j) :
    access s addr bytes store = some (hitResult s addr bytes store j, []) := by
  have h2 : check_tag_find (preS s bytes store) addr = some j := by
    rw [check_tag_find_preS, h]
  unfold access hitResult
  simp [check_tag, h2]

/-- Reduction of access on a miss: the result is the miss branch applied
to the bumped state. -/
lemma access_miss (s : CacheState) (addr bytes : Nat) (store : Bool)
    (h : check_tag_find s addr = none) :
    access s addr bytes store = missPath (preS s bytes store) addr bytes store := by
  have h2 : check_tag_find (preS s bytes store) addr = none := by
    rw [check_tag_find_preS, h]
  unfold access
  simp [check_tag, h2]

/-- C1: for every miss in access(addr, bytes, store) whose evicted victim
line was both valid and dirty, the writebacks counter increases by exactly
one and, if a next-level handler is configured, exactly one recursive
access is issued to it with isWrite = true, size = lineSize and address =
victimTag << idxShift (the line-aligned victim address); this writeback
call precedes the fill call in the handler trace, and both are part of the
access that returns; if the victim was not both valid and dirty, the
writeback counter is unchanged and only the fill call is issued. -/
theorem access_dirty_writeback (s : CacheState) (addr bytes : Nat) (store : Bool)
    (s' : CacheState) (calls : List MemCall)
    (hmiss : check_tag_find s addr = none)
    (hacc : access s addr bytes store = some (s', calls)) :
    (missVictim s addr bytes store &&& (VALID ||| DIRTY) = VALID ||| DIRTY →
        s'.writebacks = s.writebacks + 1 ∧
        calls = if s.hasMissHandler then
            [⟨(missVictim s addr bytes store &&& NOT64 (VALID ||| DIRTY)) <<< s.idx_shift,
              s.linesz, true⟩,
             ⟨addr &&& NOT64 (s.linesz - 1), s.linesz, false⟩]
          else []) ∧
    (missVictim s addr bytes store &&& (VALID ||| DIRTY) ≠ VALID ||| DIRTY →
        s'.writebacks = s.writebacks ∧
        calls = if s.hasMissHandler then
            [⟨addr &&& NOT64 (s.linesz - 1), s.linesz, false⟩]
          else []) := by
  have hmp : missPath (preS s bytes store) addr bytes store = some (s', calls) := by
    rw [← access_miss s addr bytes store hmiss, hacc]
  rcases hpv : pickVictim (bumpMissStats (preS s bytes store) store) addr with ⟨v, t2⟩
  have hv : missVictim s addr bytes store = v := by
    unfold missVictim; rw [hpv]
  have hms := missPath_spec (preS s bytes store) addr bytes store s' calls v t2 hpv hmp
  rw [hv]
  rw [preS_eq] at hms
  simpa using hms

/-- C1 witness: on the direct-mapped LRU model holding a valid dirty line
with a miss handler attached, a read of a fresh line is a miss whose
victim is valid and dirty; applying the theorem yields the single
writeback increment and the two-call trace, writeback first. -/
theorem access_dirty_writeback_witness :
    ∃ s' calls, access c1s 16 4 false = some (s', calls) ∧
      s'.writebacks = c1s.writebacks + 1 ∧
      calls = [⟨8, 8, true⟩, ⟨16, 8, false⟩] := by
  have hmiss : check_tag_find c1s 16 = none := by decide
  rcases hacc : access c1s 16 4 false with _ | ⟨s', calls⟩
  · exact absurd hacc (by decide)
  · refine ⟨s', calls, rfl, ?_⟩
    have h := access_dirty_writeback c1s 16 4 false s' calls hmiss hacc
    have hd : missVictim c1s 16 4 false &&& (VALID ||| DIRTY) = VALID ||| DIRTY := by decide
    have hc := h.1 hd
    have hvv : missVictim c1s 16 4 false &&& NOT64 (VALID ||| DIRTY) = 1 := by decide
    rw [hvv] at hc
    simpa [c1s, freshCache] using hc

/-- The hit branch of access written as one explicit record update of the
starting state. -/
lemma hitResult_eq (s : CacheState) (addr bytes : Nat) (store : Bool) (j : Nat) :
    hitResult s addr bytes store j =
      { s with
        LRUCount := if s.policy = Policy.L then s.LRUCount + 1 else s.LRUCount,
        FIFOCount := if s.policy = Policy.F then s.FIFOCount + 1 else s.FIFOCount,
        read_accesses := if store then s.read_accesses else s.read_accesses + 1,
        bytes_read := if store then s.bytes_read else s.bytes_read + bytes,
        write_accesses := if store then s.write_accesses + 1 else s.write_accesses,
        bytes_written := if store then s.bytes_written + bytes else s.bytes_written,
        LRUTime := if s.policy = Policy.L then s.LRUTime.set j (s.LRUCount + 1) else s.LRUTime,
        tags := if store then s.tags.set j ((s.tags.getD j 0) ||| DIRTY) else s.tags } := by
  unfold hitResult
  rw [preS_eq]
  cases store <;> cases hpol : s.policy <;> simp [hpol]

/-- The empty-way scan ignores the statistics fields. -/
lemma emptyWayScan_bumpMissStats (t : CacheState) (store : Bool) (addr : Nat) :
    emptyWayScan (bumpMissStats t store) addr = emptyWayScan t addr := by
  rw [bumpMissStats_eq]; rfl

/-- The empty-way scan ignores the access prologue. -/
lemma emptyWayScan_preS (s : CacheState) (bytes : Nat) (store : Bool) (addr : Nat) :
    emptyWayScan (preS s bytes store) addr = emptyWayScan s addr := by
  rw [preS_eq]; rfl

/-- What the miss branch does to the two policy counters: FIFOCount is
untouched past the prologue, and LRUCount gains one more stamp increment
per LRU stamping (two when the LRU routine filled an empty way, one when
it evicted from a full set). -/
lemma missPath_counters (t : CacheState) (addr bytes : Nat) (store : Bool)
    (s' : CacheState) (calls : List MemCall)
    (h : missPath t addr bytes store = some (s', calls)) :
    s'.FIFOCount = t.FIFOCount ∧
    s'.LRUCount = t.LRUCount + (if t.policy = Policy.L then
        (if (emptyWayScan t addr).isSome then 2 else 1) else 0) := by
  rcases hp : pickVictim (bumpMissStats t store) addr with ⟨v, t2⟩
  have hfr := pickVictim_frame (bumpMissStats t store) addr
  have hlc := pickVictim_LRUCount (bumpMissStats t store) addr
  rw [hp] at hfr hlc
  rw [emptyWayScan_bumpMissStats, bumpMissStats_eq] at hlc
  have hfc : t2.FIFOCount = t.FIFOCount := by
    rw [hfr.2.2.2.2.2.2.2.1, bumpMissStats_eq]
  have hlc2 : t2.LRUCount = t.LRUCount + (if t.policy = Policy.L then
      (if (emptyWayScan t addr).isSome then 2 else 1) else 0) := by
    simpa using hlc
  simp only [missPath, hp] at h
  by_cases hd : v &&& (VALID ||| DIRTY) = VALID ||| DIRTY <;>
    simp only [hd, if_true, if_false] at h <;>
    cases store with
  | _ =>
    first
    | (simp only [Bool.false_eq_true, if_false, Option.some.injEq, Prod.mk.injEq] at h
       obtain ⟨hs, hcalls⟩ := h
       rw [← hs]
       exact ⟨hfc, hlc2⟩)
    | (rcases hct : check_tag { t2 with writebacks := t2.writebacks + 1 } addr with ⟨jo, t4⟩
       have hf2 := check_tag_snd_frame { t2 with writebacks := t2.writebacks + 1 } addr
       rw [hct] at hf2 h
       have hfL : t4.LRUCount = t2.LRUCount := by simpa using hf2.2.2.2.2.2.2.2.1
       have hfF : t4.FIFOCount = t2.FIFOCount := by simpa using hf2.2.2.2.2.2.2.2.2.1
       cases jo with
       | none => simp at h
       | some j =>
           simp only [if_true, ite_true, eq_self_iff_true, Option.some.injEq,
             Prod.mk.injEq] at h
           obtain ⟨hs, hcalls⟩ := h
           rw [← hs]
           exact ⟨by rw [show ({ t4 with tags := t4.tags.set j ((t4.tags.getD j 0) ||| DIRTY) } :
                     CacheState).FIFOCount = t4.FIFOCount from rfl, hfF, hfc],
                  by rw [show ({ t4 with tags := t4.tags.set j ((t4.tags.getD j 0) ||| DIRTY) } :
                     CacheState).LRUCount = t4.LRUCount from rfl, hfL, hlc2]⟩)
    | (rcases hct : check_tag t2 addr with ⟨jo, t4⟩
       have hf2 := check_tag_snd_frame t2 addr
       rw [hct] at hf2 h
       have hfL : t4.LRUCount = t2.LRUCount := by simpa using hf2.2.2.2.2.2.2.2.1
       have hfF : t4.FIFOCount = t2.FIFOCount := by simpa using hf2.2.2.2.2.2.2.2.2.1
       cases jo with
       | none => simp at h
       | some j =>
           simp only [if_true, ite_true, eq_self_iff_true, Option.some.injEq,
             Prod.mk.injEq] at h
           obtain ⟨hs, hcalls⟩ := h
           rw [← hs]
           exact ⟨by rw [show ({ t4 with tags := t4.tags.set j ((t4.tags.getD j 0) ||| DIRTY) } :
                     CacheState).FIFOCount = t4.FIFOCount from rfl, hfF, hfc],
                  by rw [show ({ t4 with tags := t4.tags.set j ((t4.tags.getD j 0) ||| DIRTY) } :
                     CacheState).LRUCount = t4.LRUCount from rfl, hfL, hlc2]⟩)

/-- C2: the backends diverge. On the same trace (two reads of address 0),
same geometry (sets = 1, ways = 2, line size 8) and same deterministic
policy L, the array-based model misses then hits, while the map-based
fully-associative model misses twice: its LRU victim selection installs
lines into the inherited base array, which its map-based tag lookup never
consults, so no access can ever hit. The spec requires identical hit/miss
sequences and victim selection over the dynamic tag map. -/
theorem fa_sa_divergence :
    (runMisses c2sa [(0, 1, false), (0, 1, false)]).map (fun p => p.2) = some [true, false] ∧
    (fa_runMisses c2fa [(0, 1, false), (0, 1, false)]).map (fun p => p.2) = some [true, true] ∧
    (fa_runMisses c2fa [(0, 1, false), (0, 1, false)]).map (fun p => p.1.faTags) = some [] := by
  refine ⟨by decide, by decide, by decide⟩

/-- C3 counterexample: a single read on a fresh direct-mapped LRU model
leaves LRUCount at 3, not at 1: the access prologue increments it once and
the LRU routine increments it twice more while stamping the empty slot,
refuting that every access increases the LRU counter by exactly one. -/
theorem lru_counter_counterexample :
    (access c3s 0 1 false).map (fun p => p.1.LRUCount) = some 3 ∧
    (3 : Nat) ≠ c3s.LRUCount + 1 := by
  refine ⟨by decide, by decide⟩

/-- C5 counterexample: ways = 3, policy L, one set; reading line addresses
1, 2, 3, 4 (A, B, C, D) then 1 (A again) leaves tags [D, A, C]: the access
to D already evicted A, and the re-access of A (a miss) already evicted B.
The next read of line address 5 (E) then replaces slot 2, evicting C, not
B: B is not even resident when E arrives (first and second conjuncts), C
is resident before E and gone after (remaining conjuncts). -/
theorem lru_order_counterexample :
    (readsFrom c5s [8, 16, 24, 32, 8]).map (fun st => st.tags) =
        some [4 ||| VALID, 1 ||| VALID, 3 ||| VALID] ∧
    ¬ (2 ||| VALID) ∈ [4 ||| VALID, 1 ||| VALID, 3 ||| VALID] ∧
    (readsFrom c5s [8, 16, 24, 32, 8, 40]).map (fun st => st.tags) =
        some [4 ||| VALID, 1 ||| VALID, 5 ||| VALID] ∧
    (3 ||| VALID) ∈ [4 ||| VALID, 1 ||| VALID, 3 ||| VALID] ∧
    ¬ (3 ||| VALID) ∈ [4 ||| VALID, 1 ||| VALID, 5 ||| VALID] := by
  refine ⟨by decide, by decide, by decide, by decide, by decide⟩

/-- C5 amended: with ways = 3 the access to D evicts A (tags become
[D, B, C]), the re-access of A is a miss that evicts B (tags [D, A, C]),
and the access to the new tag E evicts C, the least recently touched
resident line, leaving A resident (tags [D, A, E]). -/
theorem lru_order_amended :
    (readsFrom c5s [8, 16, 24, 32]).map (fun st => st.tags) =
        some [4 ||| VALID, 2 ||| VALID, 3 ||| VALID] ∧
    (readsFrom c5s [8, 16, 24, 32, 8]).map (fun st => st.tags) =
        some [4 ||| VALID, 1 ||| VALID, 3 ||| VALID] ∧
    (readsFrom c5s [8, 16, 24, 32, 8, 40]).map (fun st => st.tags) =
        some [4 ||| VALID, 1 ||| VALID, 5 ||| VALID] ∧
    (1 ||| VALID) ∈ [4 ||| VALID, 1 ||| VALID, 5 ||| VALID] := by
  refine ⟨by decide, by decide, by decide, by decide⟩

/-- C6: on the sets = 1, ways = 2, line size 8, policy L model, the four
reads at addresses 0, 8, 0, 16 (line addresses 0, 1, 0, 2) produce the
miss sequence miss, miss, hit, miss, leaving read_accesses = 4 and
read_misses = 3 with no write activity, and the reported miss rate
100 * (readMisses + writeMisses) / (readAccesses + writeAccesses) is
exactly 75 percent. -/
theorem missrate_scenario :
    (runMisses c6s [(0, 1, false), (8, 1, false), (0, 1, false), (16, 1, false)]).map
        (fun p => (p.2, p.1.read_accesses, p.1.read_misses, p.1.write_accesses, p.1.write_misses)) =
      some ([true, true, false, true], 4, 3, 0, 0) ∧
    (runMisses c6s [(0, 1, false), (8, 1, false), (0, 1, false), (16, 1, false)]).map
        (fun p => missRate p.1) = some 75 := by
  refine ⟨by decide, ?_⟩
  rcases hr : runMisses c6s [(0, 1, false), (8, 1, false), (0, 1, false), (16, 1, false)]
    with _ | p
  · exact absurd hr (by decide)
  · have h1 : (runMisses c6s [(0, 1, false), (8, 1, false), (0, 1, false), (16, 1, false)]).map
        (fun q => (q.1.read_accesses, q.1.read_misses, q.1.write_accesses, q.1.write_misses)) =
        some (4, 3, 0, 0) := by decide
    rw [hr] at h1
    simp only [Option.map_some', Option.some.injEq, Prod.mk.injEq] at h1
    obtain ⟨ha, hm, hwa, hwm⟩ := h1
    simp only [Option.map_some', Option.some.injEq]
    rw [missRate, ha, hm, hwa, hwm]
    norm_num

/-- C7 counterexample: on the direct-mapped FIFO model holding line 0, a
read of address 0 is a hit (the miss counter does not move), yet the
resulting state is not the input state with only the read-access and
byte counters advanced: FIFOCount, the per-policy access counter, has
also increased, a state change outside the list the claim allows. -/
theorem hit_frame_counterexample :
    (access c7s 0 4 false).map (fun p => p.1.FIFOCount) = some (c7s.FIFOCount + 1) ∧
    (access c7s 0 4 false).map (fun p => p.1.read_misses) = some c7s.read_misses ∧
    (access c7s 0 4 false).map (fun p => p.1) ≠
      some { c7s with read_accesses := c7s.read_accesses + 1,
                      bytes_read := c7s.bytes_read + 4 } := by
  refine ⟨by decide, by decide, by decide⟩

/-- C3 amended: the FIFO counter increases by exactly one on every access
under policy F; the LRU counter increases by exactly one on a hit under
policy L, but on a miss it increases by three when the LRU routine fills
an empty way and by two when it evicts from a full set (the prologue
increment plus one increment per post-increment stamping inside LRU). -/
theorem policy_counter_increments (s : CacheState) (addr bytes : Nat) (store : Bool)
    (s' : CacheState) (calls : List MemCall)
    (hacc : access s addr bytes store = some (s', calls)) :
    (s.policy = Policy.F → s'.FIFOCount = s.FIFOCount + 1) ∧
    (s.policy = Policy.L →
      (∀ j, check_tag_find s addr = some j → s'.LRUCount = s.LRUCount + 1) ∧
      (check_tag_find s addr = none →
        s'.LRUCount = s.LRUCount + (if (emptyWayScan s addr).isSome then 3 else 2))) := by
  cases hc : check_tag_find s addr with
  | some j =>
      rw [access_hit s addr bytes store j hc] at hacc
      simp only [Option.some.injEq, Prod.mk.injEq] at hacc
      obtain ⟨hs, hcalls⟩ := hacc
      rw [← hs, hitResult_eq]
      exact ⟨fun hp => by simp [hp],
             fun hp => ⟨fun j2 _ => by simp [hp], fun hn => Option.noConfusion hn⟩⟩
  | none =>
      rw [access_miss s addr bytes store hc] at hacc
      have h := missPath_counters (preS s bytes store) addr bytes store s' calls hacc
      rw [emptyWayScan_preS, preS_eq] at h
      constructor
      · intro hp
        have h1 := h.1
        simp only [hp] at h1
        simpa using h1
      · intro hp
        refine ⟨fun j2 hj2 => Option.noConfusion hj2, fun _ => ?_⟩
        have h2 := h.2
        simp only [hp] at h2
        cases hw : (emptyWayScan s addr).isSome <;> simp [hw] at h2 ⊢ <;> omega

/-- C3 witness: one access on a fresh direct-mapped FIFO model; the
theorem gives FIFOCount exactly one higher afterwards. -/
theorem policy_counter_increments_witness :
    ∃ s' calls, access c3f 0 1 false = some (s', calls) ∧
      s'.FIFOCount = c3f.FIFOCount + 1 := by
  rcases hacc : access c3f 0 1 false with _ | ⟨s', calls⟩
  · exact absurd hacc (by decide)
  · exact ⟨s', calls, rfl,
      (policy_counter_increments c3f 0 1 false s' calls hacc).1 rfl⟩

/-- C4: on a hit under policy L, the hit slot is restamped with the
current counter value (the counter as incremented by the access
prologue), and on a hit under policy F, the FIFO stamp array is left
completely unchanged. -/
theorem hit_restamp (s : CacheState) (addr bytes : Nat) (store : Bool)
    (s' : CacheState) (calls : List MemCall) (j : Nat)
    (hhit : check_tag_find s addr = some j)
    (hacc : access s addr bytes store = some (s', calls))
    (hj : j < s.LRUTime.length) :
    (s.policy = Policy.L → s'.LRUTime.getD j 0 = s.LRUCount + 1) ∧
    (s.policy = Policy.F → s'.FIFOTime = s.FIFOTime) := by
  rw [access_hit s addr bytes store j hhit] at hacc
  simp only [Option.some.injEq, Prod.mk.injEq] at hacc
  obtain ⟨hs, hcalls⟩ := hacc
  rw [← hs, hitResult_eq]
  constructor
  · intro hp
    simp only [hp, if_true, ite_true, eq_self_iff_true]
    rw [List.getD_eq_getElem?_getD, List.getElem?_set_self (by simpa using hj)]
    rfl
  · intro hp
    rfl

/-- C4 witness: a read hit on the direct-mapped LRU model holding line 0
restamps slot 0 to the bumped counter value 1. -/
theorem hit_restamp_witness :
    ∃ s' calls, access c4s 0 1 false = some (s', calls) ∧
      s'.LRUTime.getD 0 0 = c4s.LRUCount + 1 := by
  rcases hacc : access c4s 0 1 false with _ | ⟨s', calls⟩
  · exact absurd hacc (by decide)
  · exact ⟨s', calls, rfl,
      (hit_restamp c4s 0 1 false s' calls 0 (by decide) hacc (by decide)).1 rfl⟩

/-- C7 amended: a hit issues no handler calls and changes nothing outside
this explicit update: the per-policy counter (LRUCount under L, FIFOCount
under F), the access and byte counters of the access direction, the LRU
restamp of the hit slot under policy L, and the dirty bit of the hit slot
on a write. In particular the miss counters, the writeback counter, every
other tag slot, the FIFO stamps and the draw stream are untouched. -/
theorem access_hit_frame (s : CacheState) (addr bytes : Nat) (store : Bool)
    (s' : CacheState) (calls : List MemCall) (j : Nat)
    (hhit : check_tag_find s addr = some j)
    (hacc : access s addr bytes store = some (s', calls)) :
    calls = [] ∧
    s' = { s with
      LRUCount := if s.policy = Policy.L then s.LRUCount + 1 else s.LRUCount,
      FIFOCount := if s.policy = Policy.F then s.FIFOCount + 1 else s.FIFOCount,
      read_accesses := if store then s.read_accesses else s.read_accesses + 1,
      bytes_read := if store then s.bytes_read else s.bytes_read + bytes,
      write_accesses := if store then s.write_accesses + 1 else s.write_accesses,
      bytes_written := if store then s.bytes_written + bytes else s.bytes_written,
      LRUTime := if s.policy = Policy.L then s.LRUTime.set j (s.LRUCount + 1) else s.LRUTime,
      tags := if store then s.tags.set j ((s.tags.getD j 0) ||| DIRTY) else s.tags } := by
  rw [access_hit s addr bytes store j hhit] at hacc
  simp only [Option.some.injEq, Prod.mk.injEq] at hacc
  obtain ⟨hs, hcalls⟩ := hacc
  exact ⟨hcalls.symm, by rw [← hs, hitResult_eq]⟩

/-- C7 witness: the read hit on the FIFO model holding line 0 produces no
handler calls and exactly the predicted state update. -/
theorem access_hit_frame_witness :
    ∃ s', access c7s 0 4 false = some (s', []) ∧
      s' = { c7s with FIFOCount := c7s.FIFOCount + 1,
                      read_accesses := c7s.read_accesses + 1,
                      bytes_read := c7s.bytes_read + 4 } := by
  rcases hacc : access c7s 0 4 false with _ | ⟨s', calls⟩
  · exact absurd hacc (by decide)
  · have h := access_hit_frame c7s 0 4 false s' calls 0 (by decide) hacc
    rw [h.1]
    refine ⟨s', rfl, ?_⟩
    rw [h.2]; rfl

/-- C8: under the Random policy, the victim way is the external draw
modulo ways, for every content ts of the tags array: occupancy plays no
role, an empty slot is never preferred over a valid one, and whichever
value (empty 0 or a valid tag) sits in the drawn slot is evicted and
replaced by the new tag. -/
theorem victimize_draw_mod (s : CacheState) (ts : List Nat) (addr : Nat) (h : 0 < s.ways) :
    ∃ way, way = s.draws.headD 0 % s.ways ∧ way < s.ways ∧
      victimize { s with tags := ts } addr =
        (ts.getD (setIndex s addr * s.ways + way) 0,
         { s with tags := ts.set (setIndex s addr * s.ways + way) (lineTag s addr),
                  draws := s.draws.tail }) := by
  exact ⟨s.draws.headD 0 % s.ways, rfl, Nat.mod_lt _ h, rfl⟩

/-- C8 witness: on the one-way Random model with queued draw 5 and an
occupied slot (tag 7), victimize picks way 5 mod 1 = 0 and evicts the
valid occupant. -/
theorem victimize_draw_mod_witness :
    ∃ way, way = c8s.draws.headD 0 % c8s.ways ∧ way < c8s.ways ∧
      victimize { c8s with tags := [7] } 0 =
        ([7].getD (setIndex c8s 0 * c8s.ways + way) 0,
         { c8s with tags := [7].set (setIndex c8s 0 * c8s.ways + way) (lineTag c8s 0),
                    draws := c8s.draws.tail }) :=
  victimize_draw_mod c8s [7] 0 (by decide)

/-- A positive natural is a power of two exactly when clearing its lowest
set bit (the n & (n-1) trick used by cache_sim_t::init) leaves zero. -/
lemma land_pred_eq_zero_iff (n : Nat) (h : 0 < n) :
    n &&& (n - 1) = 0 ↔ ∃ k, n = 2 ^ k := by
  induction n using Nat.strong_induction_on with
  | _ n IH =>
    constructor
    · intro h0
      rcases Nat.lt_or_ge n 2 with h2 | h2
      · exact ⟨0, by omega⟩
      · rcases Nat.mod_two_eq_zero_or_one n with he | ho
        · have hm : 0 < n / 2 := by omega
          have hdiv : (n &&& (n - 1)) / 2 = n / 2 &&& (n - 1) / 2 := Nat.and_div_two
          have h12 : (n - 1) / 2 = n / 2 - 1 := by omega
          have hz : n / 2 &&& (n / 2 - 1) = 0 := by
            rw [← h12, ← hdiv, h0]
          obtain ⟨k, hk⟩ := (IH (n / 2) (by omega) hm).1 hz
          refine ⟨k + 1, ?_⟩
          rw [pow_succ]
          omega
        · exfalso
          have hdiv : (n &&& (n - 1)) / 2 = n / 2 &&& (n - 1) / 2 := Nat.and_div_two
          have h12 : (n - 1) / 2 = n / 2 := by omega
          rw [h0, h12, Nat.and_self] at hdiv
          omega
    · rintro ⟨k, rfl⟩
      rw [Nat.and_pow_two_sub_one_eq_mod, Nat.mod_self]

/-- C9: cache_sim_t::init is fatal (help prints usage and exits, so no
partially constructed model is observable, modelled as none) exactly when
sets is zero or not a power of two, or the line size is below 8 or not a
power of two; on every valid geometry it produces a model with every
statistics counter, both policy counters, both stamp arrays and every tag
slot zero, and no next-level handler attached. -/
theorem initCache_validates (sets ways linesz : Nat) (pol : Policy) (draws : List Nat) :
    (initCache sets ways linesz pol draws = none ↔
        ¬ ((∃ k, sets = 2 ^ k) ∧ 8 ≤ linesz ∧ (∃ k, linesz = 2 ^ k))) ∧
    (∀ s, initCache sets ways linesz pol draws = some s →
        s.LRUCount = 0 ∧ s.FIFOCount = 0 ∧
        s.LRUTime = List.replicate (sets * ways) 0 ∧
        s.FIFOTime = List.replicate (sets * ways) 0 ∧
        s.tags = List.replicate (sets * ways) 0 ∧
        s.read_accesses = 0 ∧ s.read_misses = 0 ∧ s.bytes_read = 0 ∧
        s.write_accesses = 0 ∧ s.write_misses = 0 ∧ s.bytes_written = 0 ∧
        s.writebacks = 0 ∧ s.hasMissHandler = false) := by
  constructor
  · constructor
    · rintro h0 ⟨⟨k1, hk1⟩, h8, ⟨k2, hk2⟩⟩
      have hp1 : ¬(sets = 0 ∨ (sets &&& (sets - 1)) ≠ 0) := by
        rintro (hz | hnz)
        · exact (Nat.two_pow_pos k1).ne' (hz ▸ hk1).symm
        · exact hnz ((land_pred_eq_zero_iff sets (hk1 ▸ Nat.two_pow_pos k1)).mpr ⟨k1, hk1⟩)
      have hp2 : ¬(linesz < 8 ∨ (linesz &&& (linesz - 1)) ≠ 0) := by
        rintro (hz | hnz)
        · omega
        · exact hnz ((land_pred_eq_zero_iff linesz (by omega)).mpr ⟨k2, hk2⟩)
      rw [initCache, if_neg hp1, if_neg hp2] at h0
      exact Option.noConfusion h0
    · intro hbad
      unfold initCache
      by_cases h1 : sets = 0 ∨ (sets &&& (sets - 1)) ≠ 0
      · rw [if_pos h1]
      · rw [if_neg h1]
        by_cases h2 : linesz < 8 ∨ (linesz &&& (linesz - 1)) ≠ 0
        · rw [if_pos h2]
        · exfalso
          push_neg at h1 h2
          exact hbad ⟨(land_pred_eq_zero_iff sets (Nat.pos_of_ne_zero h1.1)).mp h1.2,
            h2.1, (land_pred_eq_zero_iff linesz (by omega)).mp h2.2⟩
  · intro s hs
    unfold initCache at hs
    by_cases h1 : sets = 0 ∨ (sets &&& (sets - 1)) ≠ 0
    · rw [if_pos h1] at hs; exact Option.noConfusion hs
    · rw [if_neg h1] at hs
      by_cases h2 : linesz < 8 ∨ (linesz &&& (linesz - 1)) ≠ 0
      · rw [if_pos h2] at hs; exact Option.noConfusion hs
      · rw [if_neg h2] at hs
        obtain rfl := (Option.some.injEq .. ).mp hs
        exact ⟨rfl, rfl, rfl, rfl, rfl, rfl, rfl, rfl, rfl, rfl, rfl, rfl, rfl⟩

/-- C9 witness: geometry 1:1:8 is valid and yields the zeroed model with
no handler; geometry with sets = 3 (not a power of two) and geometry with
line size 4 (below 8) are rejected. -/
theorem initCache_validates_witness :
    initCache 3 1 8 Policy.L [] = none ∧
    initCache 1 1 4 Policy.L [] = none ∧
    (∀ s, initCache 1 1 8 Policy.L [] = some s → s.writebacks = 0 ∧ s.hasMissHandler = false) := by
  refine ⟨?_, ?_, ?_⟩
  · exact (initCache_validates 3 1 8 Policy.L []).1.mpr (by
      rintro ⟨⟨k, hk⟩, -, -⟩
      rcases k with _ | _ | k
      · exact absurd hk (by norm_num)
      · exact absurd hk (by norm_num)
      · have h4 : 4 ≤ 2 ^ (k + 2) := by
          calc (4 : Nat) = 2 ^ 2 := by norm_num
          _ ≤ 2 ^ (k + 2) := Nat.pow_le_pow_right (by norm_num) (by omega)
        omega)
  · exact (initCache_validates 1 1 4 Policy.L []).1.mpr (by
      rintro ⟨-, h8, -⟩
      omega)
  · intro s hs
    have h := ((initCache_validates 1 1 8 Policy.L []).2 s hs)
    exact ⟨h.2.2.2.2.2.2.2.2.2.2.2.1, h.2.2.2.2.2.2.2.2.2.2.2.2⟩

/-- The tag lookup depends only on the geometry fields and the tags
array. -/
lemma check_tag_find_congr (a b : CacheState) (addr : Nat)
    (hw : a.ways = b.ways) (hs : a.sets = b.sets) (hi : a.idx_shift = b.idx_shift)
    (ht : a.tags = b.tags) : check_tag_find a addr = check_tag_find b addr := by
  unfold check_tag_find setIndex lineTag
  rw [hw, hs, hi, ht]

/-- Setting the valid bit keeps a sub-2^62 line address untouched by the
dirty mask: the freshly installed tag word compares equal to itself under
the & ~DIRTY of the lookup. -/
lemma or_high_and_mask (x : Nat) (hx : x < 2 ^ 62) :
    (x ||| VALID) &&& NOT64 DIRTY = x ||| VALID := by
  apply Nat.eq_of_testBit_eq
  intro i
  simp only [Nat.testBit_and, Nat.testBit_or, NOT64, DIRTY, VALID, Nat.testBit_xor,
    Nat.testBit_two_pow_sub_one, Nat.testBit_two_pow]
  by_cases h64 : i < 64
  · by_cases h62 : (62 : Nat) = i
    · subst h62
      have hx62 : x.testBit 62 = false := Nat.testBit_lt_two_pow hx
      simp [hx62]
    · simp [h64, h62]
  · have hx64 : x.testBit i = false :=
      Nat.testBit_lt_two_pow (lt_of_lt_of_le hx (Nat.pow_le_pow_right (by norm_num) (by omega)))
    have h63 : ¬ (63 : Nat) = i := by omega
    simp [h64, hx64, h63]

/-- The full-set minimum scan returns a way below ways. -/
lemma minStampWay_lt (times : List Nat) (idx ways : Nat) (h : 0 < ways) :
    minStampWay times idx ways < ways := by
  unfold minStampWay
  have key : ∀ (l : List Nat) (p : Nat × Nat),
      (l.foldl (fun q i => if times.getD (idx * ways + i) 0 < q.2
          then (i, times.getD (idx * ways + i) 0) else q) p).1 = p.1 ∨
      (l.foldl (fun q i => if times.getD (idx * ways + i) 0 < q.2
          then (i, times.getD (idx * ways + i) 0) else q) p).1 ∈ l := by
    intro l
    induction l with
    | nil => intro p; exact Or.inl rfl
    | cons a l ih =>
        intro p
        rw [List.foldl_cons]
        rcases ih (if times.getD (idx * ways + a) 0 < p.2
            then (a, times.getD (idx * ways + a) 0) else p) with h1 | h1
        · rw [h1]
          by_cases hc : times.getD (idx * ways + a) 0 < p.2
          · rw [if_pos hc]; exact Or.inr (List.mem_cons_self a l)
          · rw [if_neg hc]; exact Or.inl rfl
        · exact Or.inr (List.mem_cons_of_mem _ h1)
  rcases key (List.range ways) (0, 2147483647) with h1 | h1
  · rw [h1]; exact h
  · exact List.mem_range.mp h1

/-- Under each of the three real policies, victim selection installs
(addr >> idx_shift) | VALID at some way of the target set. -/
lemma pickVictim_installs (t : CacheState) (addr : Nat) (hways : 0 < t.ways)
    (hpol : t.policy ≠ Policy.oth) :
    ∃ way, way < t.ways ∧
      ((pickVictim t addr).2).tags =
        t.tags.set (setIndex t addr * t.ways + way) (lineTag t addr) := by
  unfold pickVictim victimize LRU FIFO
  cases hp : t.policy with
  | R => exact ⟨t.draws.headD 0 % t.ways, Nat.mod_lt _ hways, by simp⟩
  | L =>
      cases hw : emptyWayScan t addr with
      | some i =>
          refine ⟨i, List.mem_range.mp (List.mem_of_find?_eq_some hw), by simp [hw]⟩
      | none =>
          exact ⟨minStampWay t.LRUTime (setIndex t addr) t.ways,
            minStampWay_lt _ _ _ hways, by simp [hw]⟩
  | F =>
      cases hw : emptyWayScan t addr with
      | some i =>
          refine ⟨i, List.mem_range.mp (List.mem_of_find?_eq_some hw), by simp [hw]⟩
      | none =>
          exact ⟨minStampWay t.FIFOTime (setIndex t addr) t.ways,
            minStampWay_lt _ _ _ hways, by simp [hw]⟩
  | oth => exact absurd hp hpol

/-- After installing the new tag at a way inside the array bounds, the
lookup scan finds a slot. -/
lemma check_tag_find_isSome_of_install (t : CacheState) (addr way : Nat)
    (hway : way < t.ways)
    (hlen : setIndex t addr * t.ways + way < t.tags.length)
    (haddr : addr >>> t.idx_shift < 2 ^ 62) :
    (check_tag_find
      { t with tags := t.tags.set (setIndex t addr * t.ways + way) (lineTag t addr) }
      addr).isSome := by
  unfold check_tag_find
  rw [Option.isSome_map']
  rw [List.find?_isSome]
  refine ⟨way, List.mem_range.mpr hway, ?_⟩
  have hget : (t.tags.set (setIndex t addr * t.ways + way) (lineTag t addr)).getD
      (setIndex t addr * t.ways + way) 0 = lineTag t addr := by
    rw [List.getD_eq_getElem?_getD, List.getElem?_set_self hlen]
    rfl
  simp only [setIndex, lineTag] at hget ⊢
  rw [hget]
  rw [or_high_and_mask _ haddr]
  exact beq_self_eq_true _

/-- C10: on a store miss with the policy character one of R, L, F, the
victim-selection step installs (addr >> idxShift) | VALID into the target
set, so the re-lookup that access performs to mark the new line dirty
always finds a slot: the NULL branch of that re-lookup is unreachable and
access returns normally; with any other policy character nothing is
installed and the dirty-marking dereference has no valid target (access
is the modelled undefined dereference, none). The hypotheses are the
invariants of every constructed model: a 64-bit address, line size at
least 8 (so idx_shift at least 3), positive geometry, and a tags array of
length sets * ways. -/
theorem store_miss_relookup (s : CacheState) (addr bytes : Nat)
    (hmiss : check_tag_find s addr = none)
    (haddr : addr < 2 ^ 64) (hshift : 3 ≤ s.idx_shift)
    (hways : 0 < s.ways) (hsets : 0 < s.sets)
    (hlen : s.tags.length = s.sets * s.ways) :
    (s.policy ≠ Policy.oth → (access s addr bytes true).isSome) ∧
    (s.policy = Policy.oth → access s addr bytes true = none) := by
  rw [access_miss s addr bytes true hmiss]
  have h1w : (bumpMissStats (preS s bytes true) true).ways = s.ways := by
    rw [bumpMissStats_eq, preS_eq]
  have h1s : (bumpMissStats (preS s bytes true) true).sets = s.sets := by
    rw [bumpMissStats_eq, preS_eq]
  have h1i : (bumpMissStats (preS s bytes true) true).idx_shift = s.idx_shift := by
    rw [bumpMissStats_eq, preS_eq]
  have h1t : (bumpMissStats (preS s bytes true) true).tags = s.tags := by
    rw [bumpMissStats_eq, preS_eq]
  have h1p : (bumpMissStats (preS s bytes true) true).policy = s.policy := by
    rw [bumpMissStats_eq, preS_eq]
  have hset1 : setIndex (bumpMissStats (preS s bytes true) true) addr = setIndex s addr := by
    unfold setIndex; rw [h1i, h1s]
  constructor
  · intro hpol
    obtain ⟨way, hway, hinst⟩ := pickVictim_installs (bumpMissStats (preS s bytes true) true)
      addr (by rw [h1w]; exact hways) (by rw [h1p]; exact hpol)
    rcases hp : pickVictim (bumpMissStats (preS s bytes true) true) addr with ⟨v, t2⟩
    rw [hp] at hinst
    have hfr := pickVictim_frame (bumpMissStats (preS s bytes true) true) addr
    rw [hp] at hfr
    have hJlt : setIndex (bumpMissStats (preS s bytes true) true) addr *
        (bumpMissStats (preS s bytes true) true).ways + way <
        (bumpMissStats (preS s bytes true) true).tags.length := by
      rw [h1t, hlen, hset1, h1w]
      rw [h1w] at hway
      have hidx : setIndex s addr < s.sets := by
        have := Nat.and_le_right (n := addr >>> s.idx_shift) (m := s.sets - 1)
        unfold setIndex
        omega
      calc setIndex s addr * s.ways + way < setIndex s addr * s.ways + s.ways := by omega
      _ = (setIndex s addr + 1) * s.ways := by ring
      _ ≤ s.sets * s.ways := Nat.mul_le_mul_right _ (by omega)
    have haddr1 : addr >>> (bumpMissStats (preS s bytes true) true).idx_shift < 2 ^ 62 := by
      rw [h1i, Nat.shiftRight_eq_div_pow]
      rw [Nat.div_lt_iff_lt_mul (Nat.two_pow_pos _)]
      calc addr < 2 ^ 64 := haddr
      _ ≤ 2 ^ (62 + s.idx_shift) := Nat.pow_le_pow_right (by norm_num) (by omega)
      _ = 2 ^ 62 * 2 ^ s.idx_shift := pow_add 2 62 s.idx_shift
    have hsome1 := check_tag_find_isSome_of_install (bumpMissStats (preS s bytes true) true)
      addr way hway hJlt haddr1
    have hsome2 : (check_tag_find t2 addr).isSome := by
      rw [check_tag_find_congr t2
        { bumpMissStats (preS s bytes true) true with
          tags := (bumpMissStats (preS s bytes true) true).tags.set
            (setIndex (bumpMissStats (preS s bytes true) true) addr *
              (bumpMissStats (preS s bytes true) true).ways + way)
            (lineTag (bumpMissStats (preS s bytes true) true) addr) } addr
        hfr.2.2.2.2.1 hfr.2.2.2.2.2.1 hfr.2.2.1 hinst]
      exact hsome1
    simp only [missPath, hp]
    by_cases hd : v &&& (VALID ||| DIRTY) = VALID ||| DIRTY
    · simp only [hd, if_true]
      have hs3 : (check_tag_find { t2 with writebacks := t2.writebacks + 1 } addr).isSome := by
        rw [check_tag_find_congr { t2 with writebacks := t2.writebacks + 1 } t2 addr
          rfl rfl rfl rfl]
        exact hsome2
      obtain ⟨j, hj⟩ := Option.isSome_iff_exists.mp hs3
      rcases hct : check_tag { t2 with writebacks := t2.writebacks + 1 } addr with ⟨jo, t4⟩
      have hf1 := check_tag_fst { t2 with writebacks := t2.writebacks + 1 } addr
      rw [hct] at hf1
      cases jo with
      | none =>
          rw [hj] at hf1
          simp at hf1
      | some j2 => simp
    · simp only [hd, if_false]
      obtain ⟨j, hj⟩ := Option.isSome_iff_exists.mp hsome2
      rcases hct : check_tag t2 addr with ⟨jo, t4⟩
      have hf1 := check_tag_fst t2 addr
      rw [hct] at hf1
      cases jo with
      | none =>
          rw [hj] at hf1
          simp at hf1
      | some j2 => simp
  · intro hpol
    have hpv : pickVictim (bumpMissStats (preS s bytes true) true) addr =
        (0, bumpMissStats (preS s bytes true) true) := by
      have h1pol : (bumpMissStats (preS s bytes true) true).policy = Policy.oth := by
        rw [h1p]; exact hpol
      simp [pickVictim, h1pol]
    simp only [missPath, hpv]
    have hd : ¬ ((0 : Nat) &&& (VALID ||| DIRTY) = VALID ||| DIRTY) := by decide
    simp only [hd, if_false]
    have hn : check_tag_find (bumpMissStats (preS s bytes true) true) addr = none := by
      rw [check_tag_find_congr (bumpMissStats (preS s bytes true) true) s addr h1w h1s h1i h1t]
      exact hmiss
    rcases hct : check_tag (bumpMissStats (preS s bytes true) true) addr with ⟨jo, t4⟩
    have hf1 := check_tag_fst (bumpMissStats (preS s bytes true) true) addr
    rw [hct] at hf1
    cases jo with
    | some j =>
        rw [hn] at hf1
        simp at hf1
    | none => simp

/-- C10 witness: on the fresh one-way Random model, address 0 misses; with
the Random policy the theorem yields a defined (some) result; the same
geometry with an unrecognized policy character yields the modelled NULL
dereference. -/
theorem store_miss_relookup_witness :
    (access c8s 0 1 true).isSome ∧
    access (freshCache 1 1 Policy.oth) 0 1 true = none := by
  constructor
  · exact (store_miss_relookup c8s 0 1 (by decide) (by decide) (by decide)
      (by decide) (by decide) (by decide)).1 (by decide)
  · exact (store_miss_relookup (freshCache 1 1 Policy.oth) 0 1 (by decide) (by decide)
      (by decide) (by decide) (by decide) (by decide)).2 rfl

end CacheSim
